import Mathlib

/-!
Verification of the Mython interpreter core (lexer, runtime object model,
statement evaluator) against its natural-language specification.

The definitions below are a shallow embedding of the C++ sources
`lexer.cpp`, `runtime.cpp` and `statement.cpp`: the input stream becomes a
`List Char`, the token vector a `List Tok`, exceptions become `Except`,
and the mutable closure / object heap become explicitly threaded state.
Pointer dereferences that the C++ performs without a null check are
modelled by a distinguished `ub` error outcome, and the possibility of
guest-level divergence is handled with a fuel parameter (an artificial
`outOfFuel` outcome that the C++ does not have).
-/

/- ## Lexer: tokens and errors (lexer.cpp) -/

/-- Token variants of `namespace parse` (lexer.h / lexer.cpp).  The C++
`Number` payload is an `int` produced by `std::stoi` on a run of decimal
digits; we model it as `Nat` (overflow of huge literals is out of scope). -/
inductive Tok
  | number (n : Nat)
  | id (s : String)
  | str (s : String)
  | char (c : Char)
  | kwClass
  | kwReturn
  | kwIf
  | kwElse
  | kwDef
  | kwPrint
  | kwAnd
  | kwOr
  | kwNot
  | kwTrue
  | kwFalse
  | kwNone
  | eq
  | notEq
  | lessOrEq
  | greaterOrEq
  | newline
  | indent
  | dedent
  | eof
deriving DecidableEq, Repr

/-- `LexerError` outcomes.  `oddIndent` is the throw
"Indent must be multiple of two spaces", `indentJump` is
"Too big change of indent".  (The third throw in `ParseSymbol`,
"Bad multysimbol bool operation", sits in the `default:` arm of a switch
whose scrutinee is always one of `= ! < >`; it is unreachable and not
modelled.)  `fuelOut` is a model artifact of the fuel-based loop below;
it is proved unreachable for sufficient fuel. -/
inductive LexErr
  | oddIndent
  | indentJump
  | fuelOut
deriving DecidableEq, Repr

/-- `isdigit` in the C locale, on ASCII input. -/
def isdigitC (c : Char) : Bool :=
  '0' ≤ c && c ≤ '9'

/-- `isalpha` in the C locale, on ASCII input. -/
def isalphaC (c : Char) : Bool :=
  ('a' ≤ c && c ≤ 'z') || ('A' ≤ c && c ≤ 'Z')

/-- `isalnum` in the C locale, on ASCII input. -/
def isalnumC (c : Char) : Bool :=
  isalphaC c || isdigitC c

/-- `valididsimbol` (lexer.cpp): underscore or alphanumeric. -/
def valididsimbol (c : Char) : Bool :=
  c = '_' || isalnumC c

/-- `istruespace` (lexer.cpp): only the plain space counts. -/
def istruespace (c : Char) : Bool :=
  c = ' '

/-- Helper spanning a maximal prefix satisfying `p`; models the
`while (inp.get(ch) && p(ch))` read-ahead loops followed by
`inp.putback(ch)` of the terminating character. -/
def spanP (p : Char → Bool) : List Char → List Char × List Char
  | [] => ([], [])
  | c :: rest =>
    if p c then
      let r := spanP p rest
      (c :: r.1, r.2)
    else ([], c :: rest)

/-- Decimal value of a digit run, as computed by `std::stoi` on a string
of digits. -/
def digitsToNat (cs : List Char) : Nat :=
  cs.foldl (fun acc c => acc * 10 + (c.toNat - 48)) 0

/-- The body of the `while (inp.get(ch) && (ch != '\n'))` loop of
`Lexer::ParseComment`: consume up to and including the next newline.  The
first component is the final value of `ch` (the newline, or on end of
input the last character successfully read — a failed `istream::get`
leaves `ch` unchanged). -/
def skipToNewline (ch : Char) : List Char → Char × List Char
  | [] => (ch, [])
  | c :: rest => if c = '\n' then ('\n', rest) else skipToNewline c rest

/-- `Lexer::ParseComment`: if the current character is `#`, consume the
rest of the line. -/
def parseComment (ch : Char) (rest : List Char) : Char × List Char :=
  if ch = '#' then skipToNewline '#' rest else (ch, rest)

/-- The `while (inp.get(ch) && istruespace(ch)) ++counter;` loop counting
leading spaces.  On end of input `ch` keeps its last value. -/
def countSpaces (counter : Nat) (ch : Char) : List Char → Nat × Char × List Char
  | [] => (counter, ch, [])
  | c :: rest => if c = ' ' then countSpaces (counter + 1) c rest else (counter, c, rest)

/-- The indentation block of the `Lexer` constructor (the body of
`if (ch != '\n')` for a line with `counter` leading spaces while the
current indentation level is `cur`): odd counts and jumps of more than
one level are fatal; one level up emits one `Indent`; a decrease emits
one `Dedent` per level. -/
def indentStep (counter cur : Nat) : Except LexErr (List Tok × Nat) :=
  if counter % 2 ≠ 0 then .error LexErr.oddIndent
  else if counter / 2 = cur + 1 then .ok ([Tok.indent], cur + 1)
  else if counter / 2 < cur then .ok (List.replicate (cur - counter / 2) Tok.dedent, counter / 2)
  else if counter / 2 ≠ cur then .error LexErr.indentJump
  else .ok ([], cur)

/-- `Lexer::ParseNumber`: a digit starts a maximal digit run, emitted as
a `Number` token (the terminating character is put back). -/
def parseNumber (ch : Char) (rest : List Char) : Option (Tok × List Char) :=
  if isdigitC ch then
    let r := spanP isdigitC rest
    some (Tok.number (digitsToNat (ch :: r.1)), r.2)
  else none

/-- The keyword table of `Lexer::ParseIdentifer`. -/
def keywordOr (ident : String) : Tok :=
  if ident = "print" then Tok.kwPrint
  else if ident = "class" then Tok.kwClass
  else if ident = "return" then Tok.kwReturn
  else if ident = "if" then Tok.kwIf
  else if ident = "else" then Tok.kwElse
  else if ident = "def" then Tok.kwDef
  else if ident = "and" then Tok.kwAnd
  else if ident = "or" then Tok.kwOr
  else if ident = "not" then Tok.kwNot
  else if ident = "True" then Tok.kwTrue
  else if ident = "False" then Tok.kwFalse
  else if ident = "None" then Tok.kwNone
  else Tok.id ident

/-- `Lexer::ParseIdentifer`: a letter or underscore starts a maximal
identifier run, matched against the keyword table. -/
def parseIdentifer (ch : Char) (rest : List Char) : Option (Tok × List Char) :=
  if isalphaC ch || ch = '_' then
    let r := spanP valididsimbol rest
    some (keywordOr (String.mk (ch :: r.1)), r.2)
  else none

/-- The `singl_symbol` set of `Lexer::ParseSymbol`. -/
def singlSymbol (c : Char) : Bool :=
  c = '+' || c = '-' || c = '=' || c = '*' || c = '/' || c = '<' || c = '>' ||
  c = ':' || c = ',' || c = '.' || c = '(' || c = ')'

/-- The `doubl_symbol_start` set of `Lexer::ParseSymbol`. -/
def doublSymbolStart (c : Char) : Bool :=
  c = '=' || c = '!' || c = '<' || c = '>'

/-- The switch over the first character of a two-character operator;
its scrutinee is always in `doubl_symbol_start`, so the `default:`
throw is unreachable. -/
def twoCharTok (c : Char) : Tok :=
  if c = '=' then Tok.eq
  else if c = '!' then Tok.notEq
  else if c = '<' then Tok.lessOrEq
  else Tok.greaterOrEq

/-- `Lexer::ParseSymbol`.  When the character starts a two-character
operator the next character is peeked: `=` completes the operator,
anything else is put back and the single-character set is consulted (so
a lone `!` produces no token at all).  The result list is the tokens
pushed (zero or one). -/
def parseSymbol (ch : Char) (rest : List Char) : Option (List Tok × List Char) :=
  if doublSymbolStart ch || singlSymbol ch then
    some
      (match rest with
       | '=' :: rest2 =>
         if doublSymbolStart ch then ([twoCharTok ch], rest2)
         else (if singlSymbol ch then [Tok.char ch] else [], '=' :: rest2)
       | _ => (if singlSymbol ch then [Tok.char ch] else [], rest))
  else none

/-- The string-scanning loop of `Lexer::ParseString`.  Only the escapes
`\'` and `\"` are rewritten to the bare quote; for any other escape both
the backslash and the following character are appended to the buffer.
An unterminated string ends at end of input with the buffer as read (in
the C++, a backslash as the very last character makes `inp.get(next)`
fail and leave `next` indeterminate; we model the loop simply stopping
there, which the theorems below never rely on). -/
def stringBody (start : Char) : List Char → String × List Char
  | [] => ("", [])
  | c :: rest =>
    if c = start then ("", rest)
    else if c = '\\' then
      match rest with
      | [] => ("", [])
      | next :: rest2 =>
        let piece :=
          if next = '\'' then String.mk [next]
          else if next = '\"' then String.mk [next]
          else String.mk [c, next]
        let r := stringBody start rest2
        (piece ++ r.1, r.2)
    else
      let r := stringBody start rest
      (String.mk [c] ++ r.1, r.2)

/-- `Lexer::ParseString`: a quote character starts a string literal
delimited by the matching quote. -/
def parseString (ch : Char) (rest : List Char) : Option (Tok × List Char) :=
  if ch = '\'' || ch = '\"' then
    let r := stringBody ch rest
    some (Tok.str r.1, r.2)
  else none

/-- The scanning tail of one iteration of the `Lexer` constructor loop,
from the `new_line = false;` line on: newline token, single-space skip,
then `ParseNumber`, `ParseIdentifer`, `ParseSymbol`, `ParseString` in
order; a character matched by none of them is silently dropped.  `pre`
holds tokens already pushed by the indentation block this iteration. -/
def scanPart (ch : Char) (rest : List Char) (pre : List Tok) (cur : Nat) :
    List Tok × List Char × Bool × Nat :=
  if ch = '\n' then (pre ++ [Tok.newline], rest, true, cur)
  else if istruespace ch then (pre, rest, false, cur)
  else
    match parseNumber ch rest with
    | some r => (pre ++ [r.1], r.2, false, cur)
    | none =>
      match parseIdentifer ch rest with
      | some r => (pre ++ [r.1], r.2, false, cur)
      | none =>
        match parseSymbol ch rest with
        | some r => (pre ++ r.1, r.2, false, cur)
        | none =>
          match parseString ch rest with
          | some r => (pre ++ [r.1], r.2, false, cur)
          | none => (pre, rest, false, cur)

/-- One full iteration of the `Lexer` constructor loop, entered having
just read `ch0`.  Runs `ParseComment`, then (on a fresh line that starts
with a space or while indentation is open) the space-counting and
indentation block — where a putback immediately re-read by the counting
loop is modelled as the identity — and finally the scanning tail.
Returns the tokens pushed, the rest of the input, and the new
`new_line` flag and indentation level. -/
def step (ch0 : Char) (rest0 : List Char) (nl : Bool) (cur : Nat) :
    Except LexErr (List Tok × List Char × Bool × Nat) :=
  let pc := parseComment ch0 rest0
  let ch := pc.1
  let rest := pc.2
  if nl && (istruespace ch || 0 < cur) then
    let cs := if istruespace ch then countSpaces 1 ' ' rest else (0, ch, rest)
    let counter := cs.1
    let ch2 := cs.2.1
    let rest2 := cs.2.2
    if ch2 = '\n' then .ok ([], rest2, nl, cur)
    else
      match indentStep counter cur with
      | .error e => .error e
      | .ok r => .ok (scanPart ch2 rest2 r.1 r.2)
  else if nl && ch = '\n' then .ok ([], rest, nl, cur)
  else .ok (scanPart ch rest [] cur)

/-- After the `Lexer` constructor loop: `if (current_indent > 0)` push
one `Dedent` per open indentation level. -/
def closeDedents (acc : List Tok) (cur : Nat) : List Tok :=
  acc ++ List.replicate cur Tok.dedent

/-- After the `Lexer` constructor loop: append a `Newline` when the
token list is non-empty and its last token is neither `Newline` nor
`Dedent`. -/
def maybeNewline (a : List Tok) : List Tok :=
  if 0 < a.length ∧ a.getLast? ≠ some Tok.newline ∧ a.getLast? ≠ some Tok.dedent
  then a ++ [Tok.newline] else a

/-- The code after the `Lexer` constructor loop: close any open
indentation with `Dedent` tokens, append a `Newline` unless the last
token already is a `Newline` or `Dedent`, then append `Eof`. -/
def lexFinish (acc : List Tok) (cur : Nat) : List Tok :=
  maybeNewline (closeDedents acc cur) ++ [Tok.eof]

/-- The `while (inp.get(ch))` loop of the `Lexer` constructor, with fuel
(each iteration consumes at least the character it read, so
`input.length + 1` fuel always suffices; see `lexLoopF_no_fuelOut`). -/
def lexLoopF : Nat → List Char → List Tok → Bool → Nat → Except LexErr (List Tok)
  | 0, _, _, _, _ => .error LexErr.fuelOut
  | Nat.succ f, input, acc, nl, cur =>
    match input with
    | [] => .ok (lexFinish acc cur)
    | ch :: rest =>
      match step ch rest nl cur with
      | .error e => .error e
      | .ok r => lexLoopF f r.2.1 (acc ++ r.1) r.2.2.1 r.2.2.2

/-- `Lexer::Lexer`: tokenize a whole input, starting on a fresh line at
indentation level 0. -/
def lex (input : List Char) : Except LexErr (List Tok) :=
  lexLoopF (input.length + 1) input [] true 0

/-- Occurrence count of a token in a token list (used to state the
INDENT/DEDENT balance invariant). -/
def countTok (t : Tok) : List Tok → Nat
  | [] => 0
  | x :: rest => (if x = t then 1 else 0) + countTok t rest

/- ## Runtime object model (runtime.cpp) and AST (statement.cpp) -/

mutual
/-- A runtime `Object` (runtime.h): Number, Bool, String, Class or
ClassInstance.  A `ValueObject<T>` is the corresponding primitive; a
`ClassInstance` is shared and mutable, so it is modelled as an address
into the heap of `St`.  An empty `ObjectHolder` (the None value) is
`Option.none` at use sites, so holders are `Option Value`. -/
inductive Value
  | vnum (n : Int)
  | vbool (b : Bool)
  | vstr (s : String)
  | vclass (c : Cls)
  | vinst (a : Nat)

/-- `runtime::Class`: name, ordered method list, optional parent.  The
C++ stores `const Class*` pointers; classes are immutable after
construction, so they are modelled by value. -/
inductive Cls
  | mk (name : String) (methods : List Method) (parent : Option Cls)

/-- `runtime::Method`: name, formal parameter list, owned body. -/
inductive Method
  | mk (name : String) (formalParams : List String) (body : Stmt)

/-- The AST nodes of statement.cpp that the claims are about.
`fieldAssignment` stores its target as the dotted id list of the
`VariableValue` member it holds in the C++; `ifElse` has an optional
else branch (a null `unique_ptr` in the C++); `classDefinition` holds
an arbitrary `ObjectHolder` as in the C++. -/
inductive Stmt
  | assignment (var : String) (rv : Stmt)
  | variableValue (dottedIds : List String)
  | methodCall (object : Stmt) (method : String) (args : List Stmt)
  | compound (stmts : List Stmt)
  | returnStmt (stmt : Stmt)
  | classDefinition (cls : Option Value)
  | fieldAssignment (object : List String) (fieldName : String) (rv : Stmt)
  | ifElse (condition : Stmt) (ifBody : Stmt) (elseBody : Option Stmt)
  | newInstance (classRef : Cls) (args : List Stmt)
  | methodBody (body : Stmt)
end

/-- Projection: class name. -/
def Cls.name : Cls → String
  | Cls.mk n _ _ => n

/-- Projection: class method list. -/
def Cls.methods : Cls → List Method
  | Cls.mk _ ms _ => ms

/-- Projection: parent class. -/
def Cls.parent : Cls → Option Cls
  | Cls.mk _ _ p => p

/-- Projection: method name. -/
def Method.name : Method → String
  | Method.mk n _ _ => n

/-- Projection: method formal parameter list. -/
def Method.formalParams : Method → List String
  | Method.mk _ ps _ => ps

/-- Projection: method body. -/
def Method.body : Method → Stmt
  | Method.mk _ _ b => b

/-- `runtime::Closure` is `std::unordered_map<std::string, ObjectHolder>`;
an association list with overwrite-on-insert models the operations the
sources use (`find`, `at`, `operator[]` assignment).  The map's bucket
order never matters to them. -/
abbrev Closure := List (String × Option Value)

/-- Map lookup (`Closure::find`): `none` when the name is unbound. -/
def closGet (clo : Closure) (k : String) : Option (Option Value) :=
  match clo with
  | [] => none
  | kv :: rest => if kv.1 = k then some kv.2 else closGet rest k

/-- Map insert-or-assign (`closure[k] = v`). -/
def closSet (clo : Closure) (k : String) (v : Option Value) : Closure :=
  match clo with
  | [] => [(k, v)]
  | kv :: rest => if kv.1 = k then (kv.1, v) :: rest else kv :: closSet rest k v

/-- The mutable store backing `ClassInstance` objects: address `a` holds
the instance's class and its field closure (`ClassInstance::Fields()`).
`ObjectHolder::Own(ClassInstance(..))` appends a fresh entry; nothing is
ever freed (dropping shared handles is unobservable). -/
structure St where
  heap : List (Cls × Closure)

/-- Field closure of the instance at address `a` (addresses produced by
the evaluator are always in bounds). -/
def fieldsAt (st : St) (a : Nat) : Closure :=
  ((st.heap[a]?).map Prod.snd).getD []

/-- Class of the instance at address `a`. -/
def classAt (st : St) (a : Nat) : Option Cls :=
  (st.heap[a]?).map Prod.fst

/-- `fields[k] = v` on the instance at address `a`. -/
def setFieldAt (st : St) (a : Nat) (k : String) (v : Option Value) : St :=
  match st.heap[a]? with
  | some cf => St.mk (st.heap.set a (cf.1, closSet cf.2 k v))
  | none => st

/-- Errors of the evaluator.  `runtimeError` is a thrown
`std::runtime_error`; `ub` marks a place where the C++ dereferences a
null pointer (undefined behavior, typically a crash), which a thrown
error is not; `outOfFuel` is the fuel artifact. -/
inductive EvErr
  | runtimeError (msg : String)
  | ub (msg : String)
  | outOfFuel
deriving DecidableEq, Repr

/-- The last method in `ms` whose name is `n` — the entry left in
`name_to_method_` after the `Class` constructor writes
`name_to_method_[method.name] = &method` for each method in order. -/
def findLastMethod (ms : List Method) (n : String) : Option Method :=
  match ms with
  | [] => none
  | m :: rest =>
    match findLastMethod rest n with
    | some r => some r
    | none => if m.name = n then some m else none

/-- `Class::GetMethod` on the merged map built by the `Class`
constructor: the parent's merged entries are copied first, then the
class's own methods overwrite them. -/
def getMethod : Cls → String → Option Method
  | Cls.mk _ ms par, n =>
    match findLastMethod ms n with
    | some m => some m
    | none =>
      match par with
      | some p => getMethod p n
      | none => none

/-- `ClassInstance::HasMethod`: the method exists and its formal
parameter count equals the argument count. -/
def hasMethod (c : Cls) (m : String) (argc : Nat) : Bool :=
  match getMethod c m with
  | none => false
  | some mth => mth.formalParams.length = argc

/-- `VariableValue::Execute`: resolve a dotted id path.  Each id is
looked up in the current closure (a miss throws "variable is not
found"); a value that is not a ClassInstance is returned immediately
(even with ids remaining), an instance continues resolution in its
field closure; after the last id the found value is returned.  The C++
reads an uninitialized iterator if the id list is empty. -/
def execVar (ids : List String) (clo : Closure) (st : St) : Except EvErr (Option Value) :=
  match ids with
  | [] => .error (EvErr.ub "VariableValue with empty dotted id list")
  | [n] =>
    match closGet clo n with
    | none => .error (EvErr.runtimeError "variable is not found")
    | some v => .ok v
  | n :: rest =>
    match closGet clo n with
    | none => .error (EvErr.runtimeError "variable is not found")
    | some v =>
      match v with
      | some (Value.vinst a) => execVar rest (fieldsAt st a) st
      | _ => .ok v

/-- Bind formal parameters to actual arguments in order
(`closure[formal_params[i]] = actual_args[i]`). -/
def bindParams (ps : List String) (args : List (Option Value)) (clo : Closure) : Closure :=
  match ps, args with
  | p :: ps2, a :: args2 => bindParams ps2 args2 (closSet clo p a)
  | _, _ => clo

mutual
/-- `Statement::Execute` for the embedded nodes, with the closure and
heap threaded explicitly (the C++ mutates them in place, so both are
returned even when an exception propagates).  Fuel decreases on every
recursive evaluation; the C++ recursion is bounded except through
method calls, which may diverge. -/
def exec : Nat → Stmt → Closure → St → Except EvErr (Option Value) × Closure × St
  | 0, _, clo, st => (.error EvErr.outOfFuel, clo, st)
  | Nat.succ f, stmt, clo, st =>
    match stmt with
    | Stmt.assignment v rv =>
      -- Assignment::Execute: `closure[var_] = move(rv_->Execute(closure, context));
      -- return closure.at(var_);` — in C++17 the right operand of the
      -- assignment is evaluated first.
      match exec f rv clo st with
      | (.ok val, clo1, st1) => (.ok val, closSet clo1 v val, st1)
      | (.error e, clo1, st1) => (.error e, clo1, st1)
    | Stmt.variableValue ids => (execVar ids clo st, clo, st)
    | Stmt.methodCall obj m args =>
      -- MethodCall::Execute: evaluate the receiver, TryAs<ClassInstance>
      -- without a null check, evaluate the arguments, then call through
      -- the (possibly null) pointer.
      match exec f obj clo st with
      | (.error e, clo1, st1) => (.error e, clo1, st1)
      | (.ok v, clo1, st1) =>
        match execArgs f args clo1 st1 with
        | (.error e, clo2, st2) => (.error e, clo2, st2)
        | (.ok vs, clo2, st2) =>
          match v with
          | some (Value.vinst a) =>
            let r := callM f a m vs st2
            (r.1, clo2, r.2)
          | _ => (.error (EvErr.ub "MethodCall receiver is not a ClassInstance"), clo2, st2)
    | Stmt.compound ss =>
      -- Compound::Execute: run every child in order (return values are
      -- discarded), produce None.
      match execArgs f ss clo st with
      | (.ok _, clo1, st1) => (.ok none, clo1, st1)
      | (.error e, clo1, st1) => (.error e, clo1, st1)
    | Stmt.returnStmt s =>
      -- Return::Execute: evaluate the child and hand its value up.
      exec f s clo st
    | Stmt.classDefinition cv =>
      -- ClassDefinition::Execute: TryAs<Class> without a null check,
      -- bind under the class's name, produce an empty holder.
      match cv with
      | some (Value.vclass c) => (.ok none, closSet clo c.name cv, st)
      | _ => (.error (EvErr.ub "ClassDefinition holder is not a Class"), clo, st)
    | Stmt.fieldAssignment ids fname rv =>
      -- FieldAssignment::Execute: resolve the target path, take the
      -- field closure (null dereference if the target is no instance),
      -- evaluate the right side, store, and return the stored value.
      match execVar ids clo st with
      | .error e => (.error e, clo, st)
      | .ok v =>
        match v with
        | some (Value.vinst a) =>
          match exec f rv clo st with
          | (.ok rvv, clo1, st1) => (.ok rvv, clo1, setFieldAt st1 a fname rvv)
          | (.error e, clo1, st1) => (.error e, clo1, st1)
        | _ => (.error (EvErr.ub "FieldAssignment target is not a ClassInstance"), clo, st)
    | Stmt.ifElse c tb eb =>
      -- IfElse::Execute: a Bool condition selects a branch (a missing
      -- else branch is a null dereference); any other condition value
      -- silently produces an empty holder.
      match exec f c clo st with
      | (.error e, clo1, st1) => (.error e, clo1, st1)
      | (.ok v, clo1, st1) =>
        match v with
        | some (Value.vbool true) => exec f tb clo1 st1
        | some (Value.vbool false) =>
          match eb with
          | some es => exec f es clo1 st1
          | none => (.error (EvErr.ub "IfElse else branch is null"), clo1, st1)
        | _ => (.ok none, clo1, st1)
    | Stmt.newInstance cref _args =>
      -- NewInstance::Execute: `return ObjectHolder::Own(ClassInstance(class_ref));`
      -- — the stored args are not evaluated and __init__ is not called.
      (.ok (some (Value.vinst st.heap.length)), clo, St.mk (st.heap ++ [(cref, [])]))
    | Stmt.methodBody b =>
      -- MethodBody::Execute: `return body_->Execute(closure, context);`.
      exec f b clo st

/-- Left-to-right evaluation of a statement list (the argument loops of
`MethodCall::Execute` / `Print::Execute` and the child loop of
`Compound::Execute`), collecting the produced values. -/
def execArgs : Nat → List Stmt → Closure → St → Except EvErr (List (Option Value)) × Closure × St
  | _, [], clo, st => (.ok [], clo, st)
  | 0, _ :: _, clo, st => (.error EvErr.outOfFuel, clo, st)
  | Nat.succ f, s :: rest, clo, st =>
    match exec f s clo st with
    | (.error e, clo1, st1) => (.error e, clo1, st1)
    | (.ok v, clo1, st1) =>
      match execArgs f rest clo1 st1 with
      | (.ok vs, clo2, st2) => (.ok (v :: vs), clo2, st2)
      | (.error e, clo2, st2) => (.error e, clo2, st2)

/-- `ClassInstance::Call` on the instance at address `a`: absent method
or arity mismatch throws "No method found"; otherwise a fresh call
frame is built with `self` (a borrowed handle to the instance) and the
formal parameters, and the body is executed in it (the frame is
discarded afterwards, heap effects persist). -/
def callM : Nat → Nat → String → List (Option Value) → St → Except EvErr (Option Value) × St
  | 0, _, _, _, st => (.error EvErr.outOfFuel, st)
  | Nat.succ f, a, mname, args, st =>
    match classAt st a with
    | none => (.error (EvErr.ub "instance address out of range"), st)
    | some c =>
      match getMethod c mname with
      | none => (.error (EvErr.runtimeError "No method found"), st)
      | some m =>
        if m.formalParams.length = args.length then
          let clo1 := bindParams m.formalParams args (closSet [] "self" (some (Value.vinst a)))
          let r := exec f m.body clo1 st
          (r.1, r.2.2)
        else (.error (EvErr.runtimeError "No method found"), st)
end

/-- `runtime::Equal`: two empty holders are equal; same-variant
primitives compare by value; otherwise a left ClassInstance with an
`__eq__` of arity 1 is called and the result read through
`TryAs<Bool>()->GetValue()` with no null check (undefined behavior when
the dunder returns a non-Bool); anything else throws. -/
def Equal (f : Nat) (lhs rhs : Option Value) (st : St) : Except EvErr Bool × St :=
  match lhs, rhs with
  | none, none => (.ok true, st)
  | lhs, rhs =>
    match lhs, rhs with
    | some (Value.vnum a), some (Value.vnum b) => (.ok (decide (a = b)), st)
    | some (Value.vbool a), some (Value.vbool b) => (.ok (decide (a = b)), st)
    | some (Value.vstr a), some (Value.vstr b) => (.ok (decide (a = b)), st)
    | some (Value.vinst a), _ =>
      match classAt st a with
      | some c =>
        if hasMethod c "__eq__" 1 then
          match callM f a "__eq__" [rhs] st with
          | (.ok res, st1) =>
            match res with
            | some (Value.vbool b) => (.ok b, st1)
            | _ => (.error (EvErr.ub "TryAs Bool on a non-Bool dunder result"), st1)
          | (.error e, st1) => (.error e, st1)
        else (.error (EvErr.runtimeError "Cannot compare objects for equality"), st)
      | none => (.error (EvErr.ub "instance address out of range"), st)
    | _, _ => (.error (EvErr.runtimeError "Cannot compare objects for equality"), st)

/-- `runtime::Less`: same structure as `Equal` but without the
empty-holder case, comparing primitives with `<` (`false < true` for
Bool, lexicographic for String) and dispatching to `__lt__`. -/
def Less (f : Nat) (lhs rhs : Option Value) (st : St) : Except EvErr Bool × St :=
  match lhs, rhs with
  | some (Value.vnum a), some (Value.vnum b) => (.ok (decide (a < b)), st)
  | some (Value.vbool a), some (Value.vbool b) => (.ok (!a && b), st)
  | some (Value.vstr a), some (Value.vstr b) => (.ok (decide (a < b)), st)
  | some (Value.vinst a), rhs =>
    match classAt st a with
    | some c =>
      if hasMethod c "__lt__" 1 then
        match callM f a "__lt__" [rhs] st with
        | (.ok res, st1) =>
          match res with
          | some (Value.vbool b) => (.ok b, st1)
          | _ => (.error (EvErr.ub "TryAs Bool on a non-Bool dunder result"), st1)
        | (.error e, st1) => (.error e, st1)
      else (.error (EvErr.runtimeError "Cannot compare objects with less"), st)
    | none => (.error (EvErr.ub "instance address out of range"), st)
  | _, _ => (.error (EvErr.runtimeError "Cannot compare objects with less"), st)

/- ## Concrete programs used to evaluate the claims -/

/-- A class `A` whose `__init__(self, p)` stores `p` into the field `x`
of the receiver. -/
def clsA : Cls :=
  Cls.mk "A"
    [Method.mk "__init__" ["p"]
      (Stmt.fieldAssignment ["self"] "x" (Stmt.variableValue ["p"]))] none

/-- A class `B` whose method `m(self, r)` has a Compound body: first a
`return r`, then a field assignment `self.after = r` that textually
follows the Return. -/
def clsB : Cls :=
  Cls.mk "B"
    [Method.mk "m" ["r"]
      (Stmt.compound
        [Stmt.returnStmt (Stmt.variableValue ["r"]),
         Stmt.fieldAssignment ["self"] "after" (Stmt.variableValue ["r"])])] none

/-- A class `E` whose `__eq__(self, o)` and `__lt__(self, o)` simply
return `o` — a Bool argument makes them return a Bool, anything else a
non-Bool. -/
def clsE : Cls :=
  Cls.mk "E"
    [Method.mk "__eq__" ["o"] (Stmt.returnStmt (Stmt.variableValue ["o"])),
     Method.mk "__lt__" ["o"] (Stmt.returnStmt (Stmt.variableValue ["o"]))] none

/-- A class with no methods at all. -/
def clsEmpty : Cls := Cls.mk "C" [] none

/-- A right-hand side whose evaluation first binds `y` (a side effect on
the scope) and then throws: calling the missing method `nope` on the
instance `a`, with the argument expression `y = one`. -/
def rhsSideEffect : Stmt :=
  Stmt.methodCall (Stmt.variableValue ["a"]) "nope"
    [Stmt.assignment "y" (Stmt.variableValue ["one"])]

/- ## Helper lemmas: the lexer loop consumes input, so the fuel in `lex`
is always sufficient -/

theorem skipToNewline_length (ch : Char) (l : List Char) :
    (skipToNewline ch l).2.length ≤ l.length := by
  induction l generalizing ch with
  | nil => simp [skipToNewline]
  | cons c rest ih =>
    simp only [skipToNewline]
    split
    · simp
    · exact le_trans (ih c) (by simp)

theorem parseComment_length (ch : Char) (l : List Char) :
    (parseComment ch l).2.length ≤ l.length := by
  unfold parseComment
  split
  · exact skipToNewline_length '#' l
  · simp

theorem countSpaces_length (n : Nat) (ch : Char) (l : List Char) :
    (countSpaces n ch l).2.2.length ≤ l.length := by
  induction l generalizing n ch with
  | nil => simp [countSpaces]
  | cons c rest ih =>
    simp only [countSpaces]
    split
    · exact le_trans (ih (n + 1) c) (by simp)
    · simp

theorem spanP_length (p : Char → Bool) (l : List Char) :
    (spanP p l).2.length ≤ l.length := by
  induction l with
  | nil => simp [spanP]
  | cons c rest ih =>
    simp only [spanP]
    split
    · exact le_trans ih (by simp)
    · simp

theorem stringBody_length (start : Char) (l : List Char) :
    (stringBody start l).2.length ≤ l.length := by
  induction l using stringBody.induct start with
  | case1 => rw [stringBody.eq_def]
  | case2 rest2 => rw [stringBody.eq_def]; simp
  | case3 h => rw [stringBody.eq_def]; simp [h]
  | case4 next rest2 h ih =>
    rw [stringBody.eq_def]
    simp only [if_neg h, List.length_cons]
    simp
    omega
  | case5 next rest2 h h2 ih =>
    rw [stringBody.eq_def]
    simp only [if_neg h, if_neg h2, List.length_cons]
    omega

theorem parseNumber_length (ch : Char) (rest : List Char) (r : Tok × List Char)
    (h : parseNumber ch rest = some r) : r.2.length ≤ rest.length := by
  unfold parseNumber at h
  split at h
  · cases h; exact spanP_length isdigitC rest
  · cases h

theorem parseIdentifer_length (ch : Char) (rest : List Char) (r : Tok × List Char)
    (h : parseIdentifer ch rest = some r) : r.2.length ≤ rest.length := by
  unfold parseIdentifer at h
  split at h
  · cases h; exact spanP_length valididsimbol rest
  · cases h

theorem parseSymbol_length (ch : Char) (rest : List Char) (r : List Tok × List Char)
    (h : parseSymbol ch rest = some r) : r.2.length ≤ rest.length := by
  unfold parseSymbol at h
  split at h
  · cases h
    split
    · split
      · simp
      · simp
    · simp
  · cases h

theorem parseString_length (ch : Char) (rest : List Char) (r : Tok × List Char)
    (h : parseString ch rest = some r) : r.2.length ≤ rest.length := by
  unfold parseString at h
  split at h
  · cases h; exact stringBody_length ch rest
  · cases h

theorem scanPart_length (ch : Char) (rest : List Char) (pre : List Tok) (cur : Nat) :
    (scanPart ch rest pre cur).2.1.length ≤ rest.length := by
  unfold scanPart
  split
  · simp
  split
  · simp
  split
  · next r hr => exact parseNumber_length ch rest r hr
  split
  · next r hr => exact parseIdentifer_length ch rest r hr
  split
  · next r hr => exact parseSymbol_length ch rest r hr
  split
  · next r hr => exact parseString_length ch rest r hr
  · simp

theorem step_length (ch0 : Char) (rest0 : List Char) (nl : Bool) (cur : Nat)
    (r : List Tok × List Char × Bool × Nat)
    (h : step ch0 rest0 nl cur = .ok r) : r.2.1.length ≤ rest0.length := by
  have hpc : (parseComment ch0 rest0).2.length ≤ rest0.length := parseComment_length ch0 rest0
  have hcs : (countSpaces 1 ' ' (parseComment ch0 rest0).2).2.2.length ≤ rest0.length :=
    le_trans (countSpaces_length 1 ' ' (parseComment ch0 rest0).2) hpc
  cases nl with
  | false =>
    simp only [step, Bool.false_and, Bool.false_eq_true, if_false, reduceIte] at h
    cases h
    exact le_trans (scanPart_length _ _ _ _) hpc
  | true =>
    by_cases hsp : istruespace (parseComment ch0 rest0).1 = true
    · simp only [step, hsp, Bool.true_and, Bool.true_or, if_pos, reduceIte] at h
      by_cases hch2 : (countSpaces 1 ' ' (parseComment ch0 rest0).2).2.1 = '\n'
      · rw [if_pos hch2] at h
        cases h
        exact hcs
      · rw [if_neg hch2] at h
        cases hind : indentStep (countSpaces 1 ' ' (parseComment ch0 rest0).2).1 cur with
        | error e => rw [hind] at h; cases h
        | ok ri =>
          rw [hind] at h
          cases h
          exact le_trans (scanPart_length _ _ _ _) hcs
    · by_cases hcur : 0 < cur
      · simp [step, hsp, hcur] at h
        by_cases hch2 : (parseComment ch0 rest0).1 = '\n'
        · simp only [hch2, if_pos, reduceIte] at h
          cases h
          exact hpc
        · simp only [hch2, if_false, reduceIte] at h
          cases hind : indentStep 0 cur with
          | error e => rw [hind] at h; cases h
          | ok ri =>
            rw [hind] at h
            cases h
            exact le_trans (scanPart_length _ _ _ _) hpc
      · simp [step, hsp, hcur] at h
        by_cases hch2 : (parseComment ch0 rest0).1 = '\n'
        · simp only [hch2, if_pos, reduceIte] at h
          cases h
          exact hpc
        · simp only [hch2, if_false, reduceIte] at h
          cases h
          exact le_trans (scanPart_length _ _ _ _) hpc

theorem indentStep_error (c cur : Nat) (e : LexErr) (h : indentStep c cur = .error e) :
    e = LexErr.oddIndent ∨ e = LexErr.indentJump := by
  unfold indentStep at h
  by_cases h1 : c % 2 ≠ 0
  · rw [if_pos h1] at h; cases h; exact Or.inl rfl
  · rw [if_neg h1] at h
    by_cases h2 : c / 2 = cur + 1
    · rw [if_pos h2] at h; cases h
    · rw [if_neg h2] at h
      by_cases h3 : c / 2 < cur
      · rw [if_pos h3] at h; cases h
      · rw [if_neg h3] at h
        by_cases h4 : c / 2 ≠ cur
        · rw [if_pos h4] at h; cases h; exact Or.inr rfl
        · rw [if_neg h4] at h; cases h

theorem step_no_fuelOut (ch0 : Char) (rest0 : List Char) (nl : Bool) (cur : Nat)
    (e : LexErr) (h : step ch0 rest0 nl cur = .error e) : e ≠ LexErr.fuelOut := by
  cases nl with
  | false =>
    simp only [step, Bool.false_and, Bool.false_eq_true, if_false, reduceIte] at h
    cases h
  | true =>
    by_cases hsp : istruespace (parseComment ch0 rest0).1 = true
    · simp only [step, hsp, Bool.true_and, Bool.true_or, if_pos, reduceIte] at h
      by_cases hch2 : (countSpaces 1 ' ' (parseComment ch0 rest0).2).2.1 = '\n'
      · rw [if_pos hch2] at h; cases h
      · rw [if_neg hch2] at h
        cases hind : indentStep (countSpaces 1 ' ' (parseComment ch0 rest0).2).1 cur with
        | error e2 =>
          rw [hind] at h
          cases h
          rcases indentStep_error _ _ _ hind with h1 | h1 <;> simp [h1]
        | ok ri => rw [hind] at h; cases h
    · by_cases hcur : 0 < cur
      · simp [step, hsp, hcur] at h
        by_cases hch2 : (parseComment ch0 rest0).1 = '\n'
        · simp only [hch2, if_pos, reduceIte] at h; cases h
        · simp only [hch2, if_false, reduceIte] at h
          cases hind : indentStep 0 cur with
          | error e2 =>
            rw [hind] at h
            cases h
            rcases indentStep_error _ _ _ hind with h1 | h1 <;> simp [h1]
          | ok ri => rw [hind] at h; cases h
      · simp [step, hsp, hcur] at h
        by_cases hch2 : (parseComment ch0 rest0).1 = '\n'
        · simp only [hch2, if_pos, reduceIte] at h; cases h
        · simp only [hch2, if_false, reduceIte] at h; cases h

/-- The fuel given to `lexLoopF` by `lex` is always sufficient: the loop
consumes at least one character per iteration, so with more fuel than
characters the artificial `fuelOut` outcome cannot occur — the model
terminates exactly as the C++ loop does. -/
theorem lexLoopF_no_fuelOut (fuel : Nat) :
    ∀ (input : List Char) (acc : List Tok) (nl : Bool) (cur : Nat),
    input.length < fuel →
    lexLoopF fuel input acc nl cur ≠ .error LexErr.fuelOut := by
  induction fuel with
  | zero => intro input _ _ _ hlen; omega
  | succ f ih =>
    intro input acc nl cur hlen
    match input with
    | [] => simp [lexLoopF]
    | ch :: rest =>
      simp only [lexLoopF]
      cases hstep : step ch rest nl cur with
      | error e =>
        have := step_no_fuelOut ch rest nl cur e hstep
        simp [this]
      | ok r =>
        have hlen2 : r.2.1.length < f := by
          have := step_length ch rest nl cur r hstep
          simp only [List.length_cons] at hlen
          omega
        exact ih r.2.1 (acc ++ r.1) r.2.2.1 r.2.2.2 hlen2

/- ## Helper lemmas: token counting -/

theorem countTok_append (t : Tok) (l1 l2 : List Tok) :
    countTok t (l1 ++ l2) = countTok t l1 + countTok t l2 := by
  induction l1 with
  | nil => simp [countTok]
  | cons x rest ih =>
    simp only [List.cons_append, countTok, List.append_eq] at ih ⊢
    omega

theorem countTok_replicate (t s : Tok) (k : Nat) :
    countTok t (List.replicate k s) = if s = t then k else 0 := by
  induction k with
  | zero => simp [countTok]
  | succ n ih =>
    simp only [List.replicate_succ, countTok, ih]
    split <;> omega

theorem countTok_singleton_ne (t x : Tok) (h : x ≠ t) : countTok t [x] = 0 := by
  simp [countTok, h]

set_option maxHeartbeats 1000000 in
theorem keywordOr_plain (s : String) :
    keywordOr s ≠ Tok.indent ∧ keywordOr s ≠ Tok.dedent ∧ keywordOr s ≠ Tok.eof := by
  unfold keywordOr
  repeat' split
  all_goals exact ⟨fun hx => Tok.noConfusion hx, fun hx => Tok.noConfusion hx,
    fun hx => Tok.noConfusion hx⟩

theorem twoCharTok_plain (c : Char) :
    twoCharTok c ≠ Tok.indent ∧ twoCharTok c ≠ Tok.dedent ∧ twoCharTok c ≠ Tok.eof := by
  unfold twoCharTok
  repeat' split
  all_goals exact ⟨fun hx => Tok.noConfusion hx, fun hx => Tok.noConfusion hx,
    fun hx => Tok.noConfusion hx⟩

/-- The scanning tail only ever appends `Newline`, `Number`, `Id`,
keyword, operator, `Char` or `String` tokens to `pre`, and leaves the
indentation level unchanged. -/
theorem scanPart_counts (ch : Char) (rest : List Char) (pre : List Tok) (cur : Nat) :
    countTok Tok.indent (scanPart ch rest pre cur).1 = countTok Tok.indent pre ∧
    countTok Tok.dedent (scanPart ch rest pre cur).1 = countTok Tok.dedent pre ∧
    countTok Tok.eof (scanPart ch rest pre cur).1 = countTok Tok.eof pre ∧
    (scanPart ch rest pre cur).2.2.2 = cur := by
  unfold scanPart
  split
  · simp [countTok_append, countTok]
  split
  · simp
  split
  · next r hr =>
    unfold parseNumber at hr
    split at hr
    · cases hr
      simp [countTok_append, countTok]
    · cases hr
  split
  · next r hr =>
    unfold parseIdentifer at hr
    split at hr
    · cases hr
      obtain ⟨h1, h2, h3⟩ := keywordOr_plain (String.mk (ch :: (spanP valididsimbol rest).1))
      simp [countTok_append, countTok_singleton_ne _ _ h1,
            countTok_singleton_ne _ _ h2, countTok_singleton_ne _ _ h3]
    · cases hr
  split
  · next r hr =>
    unfold parseSymbol at hr
    split at hr
    · cases hr
      split
      · split
        · obtain ⟨h1, h2, h3⟩ := twoCharTok_plain ch
          simp [countTok_append, countTok_singleton_ne _ _ h1,
                countTok_singleton_ne _ _ h2, countTok_singleton_ne _ _ h3]
        · split <;> simp [countTok_append, countTok]
      · split <;> simp [countTok_append, countTok]
    · cases hr
  split
  · next r hr =>
    unfold parseString at hr
    split at hr
    · cases hr
      simp [countTok_append, countTok]
    · cases hr
  · simp

/-- The indentation block keeps the balance `indents − dedents = level`
and never emits `Eof`. -/
theorem indentStep_inv (c cur : Nat) (r : List Tok × Nat) (h : indentStep c cur = .ok r) :
    countTok Tok.indent r.1 + cur = countTok Tok.dedent r.1 + r.2 ∧
    countTok Tok.eof r.1 = 0 := by
  unfold indentStep at h
  by_cases h1 : c % 2 ≠ 0
  · rw [if_pos h1] at h; cases h
  · rw [if_neg h1] at h
    by_cases h2 : c / 2 = cur + 1
    · rw [if_pos h2] at h; cases h
      simp [countTok]
      omega
    · rw [if_neg h2] at h
      by_cases h3 : c / 2 < cur
      · rw [if_pos h3] at h; cases h
        simp only [countTok_replicate]
        simp
        omega
      · rw [if_neg h3] at h
        by_cases h4 : c / 2 ≠ cur
        · rw [if_pos h4] at h; cases h
        · rw [if_neg h4] at h; cases h
          simp [countTok]

/-- One loop iteration keeps the balance
`indents emitted − dedents emitted = change of level` and never emits
`Eof`. -/
theorem step_inv (ch0 : Char) (rest0 : List Char) (nl : Bool) (cur : Nat)
    (r : List Tok × List Char × Bool × Nat)
    (h : step ch0 rest0 nl cur = .ok r) :
    countTok Tok.indent r.1 + cur = countTok Tok.dedent r.1 + r.2.2.2 ∧
    countTok Tok.eof r.1 = 0 := by
  cases nl with
  | false =>
    simp only [step, Bool.false_and, Bool.false_eq_true, if_false, reduceIte] at h
    cases h
    obtain ⟨hi, hd, he, hc⟩ :=
      scanPart_counts (parseComment ch0 rest0).1 (parseComment ch0 rest0).2 [] cur
    refine ⟨?_, ?_⟩
    · rw [hi, hd, hc]
      rfl
    · rw [he]; rfl
  | true =>
    by_cases hsp : istruespace (parseComment ch0 rest0).1 = true
    · simp only [step, hsp, Bool.true_and, Bool.true_or, if_pos, reduceIte] at h
      by_cases hch2 : (countSpaces 1 ' ' (parseComment ch0 rest0).2).2.1 = '\n'
      · rw [if_pos hch2] at h
        cases h
        exact ⟨rfl, rfl⟩
      · rw [if_neg hch2] at h
        cases hind : indentStep (countSpaces 1 ' ' (parseComment ch0 rest0).2).1 cur with
        | error e => rw [hind] at h; cases h
        | ok ri =>
          rw [hind] at h
          cases h
          obtain ⟨hi, hd, he, hc⟩ := scanPart_counts
            (countSpaces 1 ' ' (parseComment ch0 rest0).2).2.1
            (countSpaces 1 ' ' (parseComment ch0 rest0).2).2.2 ri.1 ri.2
          obtain ⟨hbal, heof⟩ := indentStep_inv _ _ _ hind
          refine ⟨?_, ?_⟩
          · rw [hi, hd, hc]; exact hbal
          · rw [he]; exact heof
    · by_cases hcur : 0 < cur
      · simp [step, hsp, hcur] at h
        by_cases hch2 : (parseComment ch0 rest0).1 = '\n'
        · simp only [hch2, if_pos, reduceIte] at h
          cases h
          exact ⟨rfl, rfl⟩
        · simp only [hch2, if_false, reduceIte] at h
          cases hind : indentStep 0 cur with
          | error e => rw [hind] at h; cases h
          | ok ri =>
            rw [hind] at h
            cases h
            obtain ⟨hi, hd, he, hc⟩ := scanPart_counts
              (parseComment ch0 rest0).1 (parseComment ch0 rest0).2 ri.1 ri.2
            obtain ⟨hbal, heof⟩ := indentStep_inv _ _ _ hind
            refine ⟨?_, ?_⟩
            · rw [hi, hd, hc]; exact hbal
            · rw [he]; exact heof
      · simp [step, hsp, hcur] at h
        by_cases hch2 : (parseComment ch0 rest0).1 = '\n'
        · simp only [hch2, if_pos, reduceIte] at h
          cases h
          exact ⟨rfl, rfl⟩
        · simp only [hch2, if_false, reduceIte] at h
          cases h
          obtain ⟨hi, hd, he, hc⟩ :=
            scanPart_counts (parseComment ch0 rest0).1 (parseComment ch0 rest0).2 [] cur
          refine ⟨?_, ?_⟩
          · rw [hi, hd, hc]
            rfl
          · rw [he]; rfl

theorem maybeNewline_counts (a : List Tok) :
    countTok Tok.indent (maybeNewline a) = countTok Tok.indent a ∧
    countTok Tok.dedent (maybeNewline a) = countTok Tok.dedent a ∧
    countTok Tok.eof (maybeNewline a) = countTok Tok.eof a := by
  unfold maybeNewline
  split
  · simp [countTok_append, countTok]
  · exact ⟨rfl, rfl, rfl⟩

theorem maybeNewline_last (a : List Tok) (ha : a ≠ []) :
    (maybeNewline a).getLast? = some Tok.newline ∨
    (maybeNewline a).getLast? = some Tok.dedent := by
  unfold maybeNewline
  split
  · left
    exact List.getLast?_concat _
  · next hcond =>
    push_neg at hcond
    have hlen : 0 < a.length := List.length_pos.mpr ha
    rcases Decidable.em (a.getLast? = some Tok.newline) with h1 | h1
    · exact Or.inl h1
    · exact Or.inr (hcond hlen h1)

theorem maybeNewline_ne_nil (a : List Tok) (ha : a ≠ []) : maybeNewline a ≠ [] := by
  unfold maybeNewline
  split
  · simp
  · exact ha

theorem maybeNewline_nil : maybeNewline [] = [] := rfl

/-- Properties of the post-loop code, from the loop invariant. -/
theorem lexFinish_spec (acc : List Tok) (cur : Nat)
    (hc : countTok Tok.indent acc = countTok Tok.dedent acc + cur)
    (he : countTok Tok.eof acc = 0) :
    countTok Tok.indent (lexFinish acc cur) = countTok Tok.dedent (lexFinish acc cur) ∧
    countTok Tok.eof (lexFinish acc cur) = 1 ∧
    (lexFinish acc cur).getLast? = some Tok.eof ∧
    (1 < (lexFinish acc cur).length →
      (lexFinish acc cur).dropLast.getLast? = some Tok.newline ∨
      (lexFinish acc cur).dropLast.getLast? = some Tok.dedent) ∧
    ((lexFinish acc cur).length = 1 → lexFinish acc cur = [Tok.eof]) := by
  have hcd_i : countTok Tok.indent (closeDedents acc cur) = countTok Tok.indent acc := by
    simp [closeDedents, countTok_append, countTok_replicate]
  have hcd_d : countTok Tok.dedent (closeDedents acc cur) = countTok Tok.dedent acc + cur := by
    simp [closeDedents, countTok_append, countTok_replicate]
  have hcd_e : countTok Tok.eof (closeDedents acc cur) = 0 := by
    simp [closeDedents, countTok_append, countTok_replicate, he]
  obtain ⟨hmn_i, hmn_d, hmn_e⟩ := maybeNewline_counts (closeDedents acc cur)
  refine ⟨?_, ?_, ?_, ?_, ?_⟩
  · unfold lexFinish
    simp only [countTok_append, hmn_i, hmn_d, hcd_i, hcd_d, hc]
    simp [countTok]
  · unfold lexFinish
    simp only [countTok_append, hmn_e, hcd_e]
    simp [countTok]
  · unfold lexFinish
    exact List.getLast?_concat _
  · intro hlen
    unfold lexFinish at hlen ⊢
    rw [List.dropLast_concat]
    have hb : maybeNewline (closeDedents acc cur) ≠ [] := by
      intro hb
      rw [hb] at hlen
      simp at hlen
    have ha : closeDedents acc cur ≠ [] := by
      intro ha
      rw [ha, maybeNewline_nil] at hb
      exact hb rfl
    exact maybeNewline_last _ ha
  · intro hlen
    unfold lexFinish at hlen ⊢
    have hb : maybeNewline (closeDedents acc cur) = [] := by
      rw [List.length_append] at hlen
      simp at hlen
      exact hlen
    rw [hb]
    rfl

/-- Invariant of the `Lexer` constructor loop: starting from an
accumulated token list whose indent/dedent counts differ by the current
level (and which holds no `Eof`), a successful lex yields a token list
with balanced INDENT/DEDENT, exactly one final `Eof`, and a `Newline`
or `Dedent` right before it whenever other tokens exist. -/
theorem lexLoopF_inv (fuel : Nat) :
    ∀ (input : List Char) (acc : List Tok) (nl : Bool) (cur : Nat) (toks : List Tok),
    countTok Tok.indent acc = countTok Tok.dedent acc + cur →
    countTok Tok.eof acc = 0 →
    lexLoopF fuel input acc nl cur = .ok toks →
    (countTok Tok.indent toks = countTok Tok.dedent toks ∧
     countTok Tok.eof toks = 1 ∧
     toks.getLast? = some Tok.eof ∧
     (1 < toks.length →
       toks.dropLast.getLast? = some Tok.newline ∨ toks.dropLast.getLast? = some Tok.dedent) ∧
     (toks.length = 1 → toks = [Tok.eof])) := by
  induction fuel with
  | zero => intro input acc nl cur toks _ _ h; cases h
  | succ f ih =>
    intro input acc nl cur toks hc he h
    cases input with
    | nil =>
      simp only [lexLoopF] at h
      cases h
      exact lexFinish_spec acc cur hc he
    | cons ch rest =>
      simp only [lexLoopF] at h
      cases hstep : step ch rest nl cur with
      | error e => rw [hstep] at h; cases h
      | ok r =>
        rw [hstep] at h
        obtain ⟨hbal, heof⟩ := step_inv ch rest nl cur r hstep
        have hc2 : countTok Tok.indent (acc ++ r.1) =
            countTok Tok.dedent (acc ++ r.1) + r.2.2.2 := by
          simp only [countTok_append]
          omega
        have he2 : countTok Tok.eof (acc ++ r.1) = 0 := by
          simp only [countTok_append]
          omega
        exact ih r.2.1 (acc ++ r.1) r.2.2.1 r.2.2.2 toks hc2 he2 h

/-- C9: over any input the lexer accepts, the token sequence has as
many INDENT as DEDENT tokens (open indentation is closed by trailing
DEDENTs), ends with exactly one `Eof`, the token before `Eof` — when
any exists — is a `Newline` or a `Dedent`, and a lex that produced
nothing else is just `[Eof]`. -/
theorem lex_token_invariants (input : List Char) (toks : List Tok)
    (h : lex input = .ok toks) :
    countTok Tok.indent toks = countTok Tok.dedent toks ∧
    countTok Tok.eof toks = 1 ∧
    toks.getLast? = some Tok.eof ∧
    (1 < toks.length →
      toks.dropLast.getLast? = some Tok.newline ∨ toks.dropLast.getLast? = some Tok.dedent) ∧
    (toks.length = 1 → toks = [Tok.eof]) :=
  lexLoopF_inv (input.length + 1) input [] true 0 toks rfl rfl h

theorem lex_token_invariants_witness :
    countTok Tok.indent [Tok.eof] = countTok Tok.dedent [Tok.eof] ∧
    ([Tok.eof] : List Tok).getLast? = some Tok.eof :=
  ⟨(lex_token_invariants [] [Tok.eof] rfl).1, (lex_token_invariants [] [Tok.eof] rfl).2.2.1⟩

/- ## Lexer helper lemmas for whitespace and comment lines -/

theorem countSpaces_spaces (k : Nat) :
    ∀ (n : Nat) (ch : Char) (rest : List Char),
    countSpaces n ch (List.replicate k ' ' ++ '\n' :: rest) = (n + k, '\n', rest) := by
  induction k with
  | zero => intro n ch rest; simp [countSpaces]
  | succ m ih =>
    intro n ch rest
    have hsplit : List.replicate (m + 1) ' ' ++ '\n' :: rest =
        ' ' :: (List.replicate m ' ' ++ '\n' :: rest) := by
      simp [List.replicate_succ]
    rw [hsplit]
    have hstep1 : countSpaces n ch (' ' :: (List.replicate m ' ' ++ '\n' :: rest)) =
        countSpaces (n + 1) ' ' (List.replicate m ' ' ++ '\n' :: rest) := by
      simp [countSpaces]
    rw [hstep1, ih]
    have harith : n + 1 + m = n + (m + 1) := by omega
    rw [harith]

theorem skipToNewline_finds (pre : List Char) :
    ∀ (ch : Char) (rest : List Char), '\n' ∉ pre →
    skipToNewline ch (pre ++ '\n' :: rest) = ('\n', rest) := by
  induction pre with
  | nil => intro ch rest _; simp [skipToNewline]
  | cons c pre2 ih =>
    intro ch rest hpre
    have hc : c ≠ '\n' := by
      intro hx
      exact hpre (by simp [hx])
    have hpre2 : '\n' ∉ pre2 := by
      intro hx
      exact hpre (by simp [hx])
    simp only [List.cons_append, skipToNewline, if_neg hc]
    exact ih c rest hpre2

theorem step_whitespace_line (k cur : Nat) (rest : List Char) :
    step ' ' (List.replicate k ' ' ++ '\n' :: rest) true cur = .ok ([], rest, true, cur) := by
  simp [step, parseComment, istruespace, countSpaces_spaces k 1 ' ' rest]

theorem step_comment_line (pre rest : List Char) (cur : Nat) (hpre : '\n' ∉ pre) :
    step '#' (pre ++ '\n' :: rest) true cur = .ok ([], rest, true, cur) := by
  have hskip := skipToNewline_finds pre '#' rest hpre
  rcases Nat.eq_zero_or_pos cur with hcur | hcur
  · subst hcur
    simp [step, parseComment, hskip, istruespace]
  · simp [step, parseComment, hskip, istruespace, hcur]

/- ## Claim theorems: lexer -/

/-- C5 counterexample: the source line consisting of two spaces followed
by the comment `#x` — only whitespace and a comment — does not lex to
just `Eof`.  The leading spaces are processed as indentation (INDENT is
emitted and the level changes, closed by the final DEDENT) and the
comment text is tokenized as the identifier `x` followed by NEWLINE,
because `ParseComment` only fires when `#` is the character read at the
top of the loop, not when it is reached by the space-counting loop. -/
theorem comment_after_spaces_tokenized :
    lex "  #x\n".toList =
      .ok [Tok.indent, Tok.id "x", Tok.newline, Tok.dedent, Tok.eof] := rfl

/-- C5 amended: a line that is only whitespace (ending in a newline)
emits no tokens and changes neither the line state nor the indentation
level, and so does a comment line whose `#` is the first character of
the line; but a comment preceded by leading spaces is not recognized as
a comment — the spaces are treated as indentation and the comment text
is tokenized (see the counterexample). -/
theorem comment_line_blank_amended (k cur : Nat) (rest pre : List Char)
    (hpre : '\n' ∉ pre) :
    step ' ' (List.replicate k ' ' ++ '\n' :: rest) true cur = .ok ([], rest, true, cur) ∧
    step '#' (pre ++ '\n' :: rest) true cur = .ok ([], rest, true, cur) :=
  ⟨step_whitespace_line k cur rest, step_comment_line pre rest cur hpre⟩

theorem comment_line_blank_amended_witness :
    ('\n' ∉ ['h', 'i']) ∧
    step ' ' (List.replicate 2 ' ' ++ '\n' :: ['x']) true 3 = .ok ([], ['x'], true, 3) ∧
    step '#' (['h', 'i'] ++ '\n' :: ['x']) true 3 = .ok ([], ['x'], true, 3) :=
  ⟨by decide, (comment_line_blank_amended 2 3 ['x'] ['h', 'i'] (by decide)).1,
    (comment_line_blank_amended 2 3 ['x'] ['h', 'i'] (by decide)).2⟩

/-- C6 counterexample: in the string literal `'a\nb'` the escape `\n` is
not processed into a newline character — both the backslash and the `n`
are kept verbatim in the String token's payload (only `\'` and `\"` are
rewritten by `ParseString`). -/
theorem escape_n_kept_verbatim :
    lex ['\'', 'a', '\\', 'n', 'b', '\''] =
      .ok [Tok.str (String.mk ['a', '\\', 'n', 'b']), Tok.newline, Tok.eof] ∧
    String.mk ['a', '\\', 'n', 'b'] ≠ String.mk ['a', '\n', 'b'] :=
  ⟨rfl, by decide⟩

/-- C6 amended: of the escape sequences, only `\'` and `\"` are
processed into the corresponding single quote character; any other
escaped character (including `n`, `t`, `r` and the backslash itself)
is kept verbatim — the payload receives both the backslash and the
character. -/
theorem string_escape_amended (start next : Char) (rest : List Char)
    (hs : start ≠ '\\') :
    ((next = '\'' ∨ next = '\"') →
      stringBody start ('\\' :: next :: rest) =
        (String.mk [next] ++ (stringBody start rest).1, (stringBody start rest).2)) ∧
    (next ≠ '\'' → next ≠ '\"' →
      stringBody start ('\\' :: next :: rest) =
        (String.mk ['\\', next] ++ (stringBody start rest).1, (stringBody start rest).2)) := by
  have hs2 : ¬('\\' = start) := fun hx => hs hx.symm
  constructor
  · intro hq
    rw [stringBody.eq_def]
    rcases hq with hq | hq <;> subst hq <;> simp [hs2]
  · intro h1 h2
    rw [stringBody.eq_def]
    simp [hs2, h1, h2]

theorem string_escape_amended_witness :
    (('\'' : Char) ≠ '\\') ∧
    stringBody '\'' ['\\', 'n'] =
      (String.mk ['\\', 'n'] ++ (stringBody '\'' ([] : List Char)).1,
        (stringBody '\'' ([] : List Char)).2) :=
  ⟨by decide, (string_escape_amended '\'' 'n' [] (by decide)).2 (by decide) (by decide)⟩

/-- C8: the indentation block of the lexer, for a non-blank logical
line with `c` leading spaces at previous level `prev`: an odd `c` is a
fatal error; with `cur = c / 2`, a jump past `prev + 1` is a fatal
error, one level up emits exactly one INDENT, a decrease emits exactly
`prev − cur` DEDENTs, and an unchanged level emits nothing. -/
theorem indentation_protocol (c prev : Nat) :
    (c % 2 = 1 → indentStep c prev = .error LexErr.oddIndent) ∧
    (c % 2 = 0 → c / 2 = prev + 1 → indentStep c prev = .ok ([Tok.indent], prev + 1)) ∧
    (c % 2 = 0 → prev + 1 < c / 2 → indentStep c prev = .error LexErr.indentJump) ∧
    (c % 2 = 0 → c / 2 < prev →
      indentStep c prev = .ok (List.replicate (prev - c / 2) Tok.dedent, c / 2)) ∧
    (c % 2 = 0 → c / 2 = prev → indentStep c prev = .ok ([], prev)) := by
  unfold indentStep
  refine ⟨?_, ?_, ?_, ?_, ?_⟩
  · intro h1
    rw [if_pos (by omega)]
  · intro h1 h2
    rw [if_neg (by omega), if_pos h2]
  · intro h1 h2
    rw [if_neg (by omega), if_neg (by omega), if_neg (by omega), if_pos (by omega)]
  · intro h1 h2
    rw [if_neg (by omega), if_neg (by omega), if_pos h2]
  · intro h1 h2
    rw [if_neg (by omega), if_neg (by omega), if_neg (by omega), if_neg (by omega)]

theorem indentation_protocol_witness :
    (2 % 2 = 0 ∧ 2 / 2 = 0 + 1) ∧ indentStep 2 0 = .ok ([Tok.indent], 0 + 1) :=
  ⟨by decide, (indentation_protocol 2 0).2.1 (by decide) (by decide)⟩

/- ## Claim theorems: evaluator -/

theorem closGet_closSet (clo : Closure) (k : String) (v : Option Value) :
    closGet (closSet clo k v) k = some v := by
  induction clo with
  | nil => simp [closSet, closGet]
  | cons kv rest ih =>
    by_cases hk : kv.1 = k
    · simp [closSet, hk, closGet]
    · simp [closSet, hk, closGet, ih]

/-- C1: `NewInstance::Execute` on class `A`, which defines `__init__`
with arity matching the one supplied argument (`arg = 5` in scope):
the code allocates and returns a fresh `ClassInstance` but neither
evaluates the argument nor invokes `__init__` — the new instance's
field scope is empty, although the spec's `__init__` body would have
set `x` to 5. -/
theorem newInstance_ignores_init :
    hasMethod clsA "__init__" 1 = true ∧
    exec 5 (Stmt.newInstance clsA [Stmt.variableValue ["arg"]])
        [("arg", some (Value.vnum 5))] (St.mk []) =
      (.ok (some (Value.vinst 0)), [("arg", some (Value.vnum 5))], St.mk [(clsA, [])]) :=
  ⟨rfl, rfl⟩

/-- C2 counterexample: calling method `m(self, r)` of class `B`, whose
Compound body is `return r` followed by `self.after = r`, with argument
`7`: the call's result is the empty holder (None), not the Return's
value 7, and the field assignment textually following the Return did
execute (the instance's `after` field was set). -/
theorem return_in_compound_not_propagated :
    callM 9 0 "m" [some (Value.vnum 7)] (St.mk [(clsB, [])]) =
      (.ok none, St.mk [(clsB, [("after", some (Value.vnum 7))])]) ∧
    (Option.none : Option Value) ≠ some (Value.vnum 7) :=
  ⟨rfl, fun h => Option.noConfusion h⟩

/-- C2 amended: `Return` evaluates its child and hands the value to its
immediate parent but does not interrupt execution.  When the Return is
itself the whole method body, `MethodBody` passes its value through, so
it becomes the call's result; but inside a `Compound` every child runs
(statements after a Return included), each child's value is discarded,
and the Compound — hence the method body — produces None. -/
theorem return_semantics_amended (f : Nat) (e : Stmt) (clo : Closure) (st : St) :
    exec (f + 2) (Stmt.methodBody (Stmt.returnStmt e)) clo st = exec f e clo st ∧
    (∀ (ss : List Stmt) (r : List (Option Value)) (clo1 : Closure) (st1 : St),
      execArgs f ss clo st = (.ok r, clo1, st1) →
      exec (f + 1) (Stmt.compound ss) clo st = (.ok none, clo1, st1)) := by
  constructor
  · rfl
  · intro ss r clo1 st1 hargs
    simp only [exec]
    rw [hargs]

theorem return_semantics_amended_witness :
    execArgs 3 [Stmt.returnStmt (Stmt.variableValue ["x"])]
        [("x", some (Value.vnum 1))] (St.mk []) =
      (.ok [some (Value.vnum 1)], [("x", some (Value.vnum 1))], St.mk []) ∧
    exec 4 (Stmt.compound [Stmt.returnStmt (Stmt.variableValue ["x"])])
        [("x", some (Value.vnum 1))] (St.mk []) =
      (.ok none, [("x", some (Value.vnum 1))], St.mk []) :=
  ⟨rfl,
    (return_semantics_amended 3 (Stmt.variableValue ["x"])
        [("x", some (Value.vnum 1))] (St.mk [])).2
      [Stmt.returnStmt (Stmt.variableValue ["x"])] [some (Value.vnum 1)] _ _ rfl⟩

/-- C3 counterexample: an `IfElse` whose condition evaluates to the
non-Bool value `Number 1` silently produces the empty holder (None) —
no RuntimeError is raised; and an `IfElse` with a `Bool false`
condition and a missing else branch dereferences the null else pointer
(undefined behavior) instead of producing None. -/
theorem ifElse_counterexample :
    exec 3 (Stmt.ifElse (Stmt.variableValue ["c"]) (Stmt.variableValue ["t"]) none)
        [("c", some (Value.vnum 1)), ("t", some (Value.vnum 9))] (St.mk []) =
      (.ok none, [("c", some (Value.vnum 1)), ("t", some (Value.vnum 9))], St.mk []) ∧
    exec 3 (Stmt.ifElse (Stmt.variableValue ["c"]) (Stmt.variableValue ["t"]) none)
        [("c", some (Value.vbool false)), ("t", some (Value.vnum 9))] (St.mk []) =
      (.error (EvErr.ub "IfElse else branch is null"),
        [("c", some (Value.vbool false)), ("t", some (Value.vnum 9))], St.mk []) :=
  ⟨rfl, rfl⟩

/-- C3 amended: if the condition evaluates to a Bool, the matching
branch's result is returned, where a missing else branch is a null
dereference (undefined behavior) rather than None; if the condition
evaluates to any non-Bool value, Execute returns None without raising
an error. -/
theorem ifElse_amended (f : Nat) (cond tb : Stmt) (eb : Option Stmt)
    (clo : Closure) (st : St) (v : Option Value) (clo1 : Closure) (st1 : St)
    (hcond : exec f cond clo st = (.ok v, clo1, st1)) :
    ((∀ b, v ≠ some (Value.vbool b)) →
      exec (f + 1) (Stmt.ifElse cond tb eb) clo st = (.ok none, clo1, st1)) ∧
    (v = some (Value.vbool true) →
      exec (f + 1) (Stmt.ifElse cond tb eb) clo st = exec f tb clo1 st1) ∧
    (v = some (Value.vbool false) → ∀ es, eb = some es →
      exec (f + 1) (Stmt.ifElse cond tb eb) clo st = exec f es clo1 st1) ∧
    (v = some (Value.vbool false) → eb = none →
      exec (f + 1) (Stmt.ifElse cond tb eb) clo st =
        (.error (EvErr.ub "IfElse else branch is null"), clo1, st1)) := by
  refine ⟨?_, ?_, ?_, ?_⟩
  · intro hnb
    simp only [exec]
    rw [hcond]
    cases v with
    | none => rfl
    | some vv =>
      cases vv with
      | vbool b => exact absurd rfl (hnb b)
      | vnum n => rfl
      | vstr s => rfl
      | vclass c => rfl
      | vinst a => rfl
  · intro hv
    subst hv
    simp only [exec]
    rw [hcond]
  · intro hv es heb
    subst hv
    subst heb
    simp only [exec]
    rw [hcond]
  · intro hv heb
    subst hv
    subst heb
    simp only [exec]
    rw [hcond]

theorem ifElse_amended_witness :
    exec 1 (Stmt.variableValue ["c"]) [("c", some (Value.vbool true))] (St.mk []) =
      (.ok (some (Value.vbool true)), [("c", some (Value.vbool true))], St.mk []) ∧
    exec 2 (Stmt.ifElse (Stmt.variableValue ["c"]) (Stmt.variableValue ["c"]) none)
        [("c", some (Value.vbool true))] (St.mk []) =
      exec 1 (Stmt.variableValue ["c"]) [("c", some (Value.vbool true))] (St.mk []) :=
  ⟨rfl,
    (ifElse_amended 1 (Stmt.variableValue ["c"]) (Stmt.variableValue ["c"]) none
        [("c", some (Value.vbool true))] (St.mk []) (some (Value.vbool true))
        [("c", some (Value.vbool true))] (St.mk []) rfl).2.1 rfl⟩

/-- C4: `MethodCall::Execute` with a receiver that evaluates to a
non-ClassInstance — here `Number 5` and the empty (None) holder —
dereferences the unchecked null `TryAs<ClassInstance>` result
(undefined behavior), rather than raising a RuntimeError; the argument
expressions are still evaluated first. -/
theorem methodCall_nonInstance_ub :
    exec 5 (Stmt.methodCall (Stmt.variableValue ["n"]) "foo" [])
        [("n", some (Value.vnum 5))] (St.mk []) =
      (.error (EvErr.ub "MethodCall receiver is not a ClassInstance"),
        [("n", some (Value.vnum 5))], St.mk []) ∧
    exec 5 (Stmt.methodCall (Stmt.variableValue ["n"]) "foo" [])
        [("n", none)] (St.mk []) =
      (.error (EvErr.ub "MethodCall receiver is not a ClassInstance"),
        [("n", none)], St.mk []) :=
  ⟨rfl, rfl⟩

/-- C7: class `E` defines `__eq__` and `__lt__` of arity 1 that return
their argument.  When the dunder returns a Bool, `Equal` yields that
Bool's value; but when it returns a non-Bool (here `Number 3`), the
unchecked `TryAs<Bool>()->GetValue()` is a null dereference (undefined
behavior), not a raised RuntimeError — for `Equal` and `Less` alike. -/
theorem dunder_nonbool_ub :
    hasMethod clsE "__eq__" 1 = true ∧
    hasMethod clsE "__lt__" 1 = true ∧
    Equal 9 (some (Value.vinst 0)) (some (Value.vbool true)) (St.mk [(clsE, [])]) =
      (.ok true, St.mk [(clsE, [])]) ∧
    Equal 9 (some (Value.vinst 0)) (some (Value.vnum 3)) (St.mk [(clsE, [])]) =
      (.error (EvErr.ub "TryAs Bool on a non-Bool dunder result"), St.mk [(clsE, [])]) ∧
    Less 9 (some (Value.vinst 0)) (some (Value.vnum 3)) (St.mk [(clsE, [])]) =
      (.error (EvErr.ub "TryAs Bool on a non-Bool dunder result"), St.mk [(clsE, [])]) :=
  ⟨rfl, rfl, rfl, rfl, rfl⟩

/-- C10 counterexample: `x = a.nope(y = one)` in a scope where `a` is an
instance of a method-less class and `one = 1`.  Evaluating the right
side binds `y` (a side effect of the argument expression) and then
throws "No method found"; the Assignment propagates the error and the
scope is NOT left completely unchanged — `y`, unbound before, is bound
afterwards (while `x` itself is indeed never bound). -/
theorem assignment_side_effect_counterexample :
    closGet [("a", some (Value.vinst 0)), ("one", some (Value.vnum 1))] "y" = none ∧
    exec 9 (Stmt.assignment "x" rhsSideEffect)
        [("a", some (Value.vinst 0)), ("one", some (Value.vnum 1))] (St.mk [(clsEmpty, [])]) =
      (.error (EvErr.runtimeError "No method found"),
       [("a", some (Value.vinst 0)), ("one", some (Value.vnum 1)), ("y", some (Value.vnum 1))],
       St.mk [(clsEmpty, [])]) ∧
    closGet [("a", some (Value.vinst 0)), ("one", some (Value.vnum 1)),
        ("y", some (Value.vnum 1))] "y" = some (some (Value.vnum 1)) ∧
    closGet [("a", some (Value.vinst 0)), ("one", some (Value.vnum 1)),
        ("y", some (Value.vnum 1))] "x" = none :=
  ⟨rfl, rfl, rfl, rfl⟩

/-- C10 amended: the right side is evaluated before the scope is
touched (C++17 sequencing of the assignment operands).  If it raises,
the Assignment adds no binding for the name — the scope is exactly
whatever the right side's own evaluation left behind; if it succeeds,
the scope afterwards maps the name to the produced value and Execute
returns that same value. -/
theorem assignment_amended (f : Nat) (v : String) (rv : Stmt) (clo : Closure) (st : St) :
    (∀ (e : EvErr) (clo1 : Closure) (st1 : St),
      exec f rv clo st = (.error e, clo1, st1) →
      exec (f + 1) (Stmt.assignment v rv) clo st = (.error e, clo1, st1)) ∧
    (∀ (val : Option Value) (clo1 : Closure) (st1 : St),
      exec f rv clo st = (.ok val, clo1, st1) →
      exec (f + 1) (Stmt.assignment v rv) clo st = (.ok val, closSet clo1 v val, st1) ∧
      closGet (closSet clo1 v val) v = some val) := by
  constructor
  · intro e clo1 st1 hrv
    simp only [exec]
    rw [hrv]
  · intro val clo1 st1 hrv
    refine ⟨?_, ?_⟩
    · simp only [exec]
      rw [hrv]
    · exact closGet_closSet clo1 v val

theorem assignment_amended_witness :
    exec 2 (Stmt.variableValue ["one"]) [("one", some (Value.vnum 1))] (St.mk []) =
      (.ok (some (Value.vnum 1)), [("one", some (Value.vnum 1))], St.mk []) ∧
    exec 3 (Stmt.assignment "x" (Stmt.variableValue ["one"]))
        [("one", some (Value.vnum 1))] (St.mk []) =
      (.ok (some (Value.vnum 1)),
        closSet [("one", some (Value.vnum 1))] "x" (some (Value.vnum 1)), St.mk []) ∧
    closGet (closSet [("one", some (Value.vnum 1))] "x" (some (Value.vnum 1))) "x" =
      some (some (Value.vnum 1)) :=
  ⟨rfl,
    ((assignment_amended 2 "x" (Stmt.variableValue ["one"])
        [("one", some (Value.vnum 1))] (St.mk [])).2 (some (Value.vnum 1)) _ _ rfl).1,
    ((assignment_amended 2 "x" (Stmt.variableValue ["one"])
        [("one", some (Value.vnum 1))] (St.mk [])).2 (some (Value.vnum 1)) _ _ rfl).2⟩
